import Mathlib

/-!
Verification of the tab-bar active-state synchronization and active-file
reconciliation logic of playground-elements.

The definitions below are a shallow embedding of:
- src/internal/tab-bar.ts  (class PlaygroundInternalTabBar)
- src/playground-tab-bar.ts  (class PlaygroundTabBar, method setNewActiveFile)
- src/playground-file-system-controls.ts  (class PlaygroundFileSystemControls)

Tab elements are identified by a numeric id standing for DOM object identity.
-/

namespace Playground

/-- A tab element (class PlaygroundInternalTab in src/internal/tab.ts).
Fields: object identity, the index property, the active property, and
whether the element carries the static active attribute. -/
structure Tab where
  id : Nat
  index : Nat
  active : Bool
  hasActiveAttr : Bool
deriving DecidableEq

/-- State of the internal tab bar (class PlaygroundInternalTabBar in
src/internal/tab-bar.ts): the assigned tab list and the identity of the
tab stored in the private field holding the active tab, if any. -/
structure TabBar where
  tabs : List Tab
  activeId : Option Nat
deriving DecidableEq

/-- An observable change notification. The bar or a tab dispatches a
tabchange event carrying the newly active tab identity. -/
inductive Ev where
  | tabchange : Option Nat → Ev
deriving DecidableEq

/-- Mutating the active property of the tab object with identity i inside a
tab list (models an assignment such as oldActive.active = false). -/
def setTabActive (ts : List Tab) (i : Nat) (b : Bool) : List Tab :=
  ts.map fun t => if t.id == i then { t with active := b } else t

/-- Intermediate state of the active setter of the bar, read from
src/internal/tab-bar.ts lines 58 to 65: the private active field is
reassigned first, then the previously active tab has its flag cleared.
The newly active tab has not yet been flagged at this point. -/
def setActiveMid (bar : TabBar) (tab : Option Nat) : TabBar :=
  if tab = bar.activeId then bar
  else
    match bar.activeId with
    | some old => { bar with activeId := tab, tabs := setTabActive bar.tabs old false }
    | none => { bar with activeId := tab }

/-- Modelled from the spec: setting the active flag of a tab to true is
expected to trigger a tabchange notification back to the controller when
the flag changes from false to true (the tab element source
src/internal/tab.ts is not among the provided sources). -/
def tabWouldEmit (ts : List Tab) (i : Nat) : Bool :=
  ts.any fun t => t.id == i && !t.active

/-- The active setter of the bar (src/internal/tab-bar.ts lines 41 to 78),
returning the new state together with the list of dispatched tabchange
events. Early return when the requested tab is already the active one;
otherwise the old active flag is cleared, then the new tab is flagged
active (which makes the tab dispatch tabchange), and in the undefined
case the bar dispatches tabchange itself. -/
def setActiveEv (bar : TabBar) (tab : Option Nat) : TabBar × List Ev :=
  if tab = bar.activeId then (bar, [])
  else
    let mid := setActiveMid bar tab
    match tab with
    | some j =>
        ({ mid with tabs := setTabActive mid.tabs j true },
         if tabWouldEmit mid.tabs j then [Ev.tabchange (some j)] else [])
    | none => (mid, [Ev.tabchange none])

/-- The active setter, state part only. -/
def setActive (bar : TabBar) (tab : Option Nat) : TabBar :=
  (setActiveEv bar tab).1

/-- A tab asserts that it is active when its active property is set or it
carries the active attribute (src/internal/tab-bar.ts line 108). -/
def claimsActive (t : Tab) : Bool :=
  t.active || t.hasActiveAttr

/-- The loop of the slotchange handler (src/internal/tab-bar.ts lines 103
to 114): walk the tabs in order, assign index i to each, remember the
first tab asserting active, and clear the active flag of every tab after
that first one. Returns the rewritten list and the identity of the first
tab that asserted active, if any. -/
def slotLoop : List Tab → Nat → Option Nat → List Tab × Option Nat
  | [], _, na => ([], na)
  | t :: ts, i, na =>
    match na with
    | some a =>
      let rest := slotLoop ts (i + 1) (some a)
      ({ t with index := i, active := false } :: rest.1, rest.2)
    | none =>
      if claimsActive t then
        let rest := slotLoop ts (i + 1) (some t.id)
        ({ t with index := i } :: rest.1, rest.2)
      else
        let rest := slotLoop ts (i + 1) none
        ({ t with index := i } :: rest.1, rest.2)

/-- The slotchange handler (src/internal/tab-bar.ts lines 96 to 116): store
the newly assigned tabs, run the indexing loop, then assign the first
active claimant to the active setter of the bar. -/
def onSlotchange (bar : TabBar) (newTabs : List Tab) : TabBar :=
  let r := slotLoop newTabs 0 none
  setActive { bar with tabs := r.1 } r.2

/-- The tab object currently held by the private active field, resolved
against the tab list by identity. -/
def activeTab (bar : TabBar) : Option Tab :=
  bar.activeId.bind fun i => bar.tabs.find? fun t => t.id == i

/-- Index arithmetic of the keydown handler (src/internal/tab-bar.ts lines
128 to 138): ArrowLeft decrements when above 0, ArrowRight increments
when below the last position, other keys leave the index unchanged. -/
def keyNewIdx (key : String) (oldIdx n : Nat) : Nat :=
  if key == "ArrowLeft" then
    if 0 < oldIdx then oldIdx - 1 else oldIdx
  else if key == "ArrowRight" then
    if oldIdx < n - 1 then oldIdx + 1 else oldIdx
  else oldIdx

/-- The keydown handler (src/internal/tab-bar.ts lines 127 to 146): read
the index of the active tab defaulting to 0, compute the new index, and
when it differs assign the tab at the new position to the active setter.
Focus transfer is presentation only and is not modelled. -/
def onKeydown (bar : TabBar) (key : String) : TabBar × List Ev :=
  let oldIdx := ((activeTab bar).map Tab.index).getD 0
  let newIdx := keyNewIdx key oldIdx bar.tabs.length
  if newIdx ≠ oldIdx then
    setActiveEv bar ((bar.tabs.get? newIdx).map Tab.id)
  else (bar, [])

/-- A project file (interface of the project collaborator): name and the
hidden visibility flag. -/
structure FileEntry where
  name : String
  hidden : Bool
deriving DecidableEq

/-- State of the outer tab bar (class PlaygroundTabBar in
src/playground-tab-bar.ts): the project files and the private fields
holding the active file name and the active file index. -/
structure PlaygroundTabBar where
  files : List FileEntry
  activeFileName : String
  activeFileIndex : Nat
deriving DecidableEq

/-- The visibleFiles getter (src/playground-tab-bar.ts lines 136 to 138):
project files that are not hidden. -/
def visibleFiles (s : PlaygroundTabBar) : List FileEntry :=
  s.files.filter fun f => !f.hidden

/-- The backward scan loop of setNewActiveFile (src/playground-tab-bar.ts
lines 275 to 281): from position i down to 0, return the first entry of
the list that exists and is not hidden, none when the loop exhausts. -/
def scanBack (vis : List FileEntry) : Nat → Option FileEntry
  | 0 =>
    match vis.get? 0 with
    | some f => if !f.hidden then some f else none
    | none => none
  | i + 1 =>
    match vis.get? (i + 1) with
    | some f => if !f.hidden then some f else scanBack vis i
    | none => scanBack vis i

/-- The setNewActiveFile method (src/playground-tab-bar.ts lines 260 to
286). First branch: when the active file name is nonempty and still
present among the visible files, only the index is updated. Second
branch: backward scan from the stored index; on a hit only the file name
is assigned. Last branch: index 0 and the empty sentinel name. -/
def setNewActiveFile (s : PlaygroundTabBar) : PlaygroundTabBar :=
  let vis := visibleFiles s
  let cont : PlaygroundTabBar :=
    match scanBack vis s.activeFileIndex with
    | some f => { s with activeFileName := f.name }
    | none => { s with activeFileIndex := 0, activeFileName := "" }
  if s.activeFileName = "" then cont
  else
    match List.findIdx? (fun f => f.name == s.activeFileName) vis with
    | some idx => { s with activeFileIndex := idx }
    | none => cont

/-- The project collaborator as seen by the file-system controls: the
filename validation predicate it exposes. -/
structure Project where
  isValidNewFilename : String → Bool

/-- State of the file-system controls (class PlaygroundFileSystemControls
in src/playground-file-system-controls.ts): the connected project, if
any, and the value of the filename input element when it is rendered. -/
structure FileSystemControls where
  project : Option Project
  filenameInput : Option String

/-- The filenameInputValid getter (src/playground-file-system-controls.ts
lines 279 to 285): a project is connected, the input exists, and the
project accepts the input value as a new filename. -/
def filenameInputValid (c : FileSystemControls) : Bool :=
  match c.project, c.filenameInput with
  | some p, some v => p.isValidNewFilename v
  | _, _ => false

/-- Disabled flag of the rendered submit button: the rename and newfile
templates bind disabled to the negation of filenameInputValid
(src/playground-file-system-controls.ts lines 216 and 237), and the
button is rendered exactly when the filename input is. -/
def submitButtonDisabled (c : FileSystemControls) : Option Bool :=
  match c.filenameInput with
  | some _ => some (!(filenameInputValid c))
  | none => none

/-- The keydown handler of the filename input
(src/playground-file-system-controls.ts lines 287 to 294): the submit
button is clicked exactly when the key is Enter and the rendered submit
button is present with its disabled flag false. Returns whether the
submit action fired. -/
def onFilenameInputKeydown (c : FileSystemControls) (key : String) : Bool :=
  key == "Enter" && submitButtonDisabled c == some false

/-- Invariant of the internal tab bar: tab identities are distinct, and
every tab whose active flag is set is the one registered in the private
active field. -/
abbrev TabBarInv (bar : TabBar) : Prop :=
  (bar.tabs.map Tab.id).Nodup ∧
    ∀ t ∈ bar.tabs, t.active = true → bar.activeId = some t.id

/-- At most one tab of the list has its active flag set. -/
abbrev atMostOneActive (ts : List Tab) : Prop :=
  (ts.filter fun t => t.active).length ≤ 1

theorem setTabActive_map_id (ts : List Tab) (i : Nat) (b : Bool) :
    (setTabActive ts i b).map Tab.id = ts.map Tab.id := by
  simp only [setTabActive, List.map_map]
  refine List.map_congr_left fun t _ => ?_
  simp only [Function.comp_apply]
  split <;> rfl

theorem setTabActive_map_index (ts : List Tab) (i : Nat) (b : Bool) :
    (setTabActive ts i b).map Tab.index = ts.map Tab.index := by
  simp only [setTabActive, List.map_map]
  refine List.map_congr_left fun t _ => ?_
  simp only [Function.comp_apply]
  split <;> rfl

theorem mem_setTabActive {ts : List Tab} {i : Nat} {b : Bool} {t' : Tab} :
    t' ∈ setTabActive ts i b ↔
      ∃ t ∈ ts, t' = if t.id == i then { t with active := b } else t := by
  simp only [setTabActive, List.mem_map]
  constructor
  · rintro ⟨t, ht, rfl⟩; exact ⟨t, ht, rfl⟩
  · rintro ⟨t, ht, rfl⟩; exact ⟨t, ht, rfl⟩

theorem setActiveEv_of_eq {bar : TabBar} {tab : Option Nat}
    (h : tab = bar.activeId) : setActiveEv bar tab = (bar, []) := by
  simp [setActiveEv, h]

theorem setActive_activeId (bar : TabBar) (tab : Option Nat) :
    (setActive bar tab).activeId = tab := by
  by_cases h : tab = bar.activeId
  · simp [setActive, setActiveEv, h]
  · cases tab with
    | none =>
      cases hA : bar.activeId with
      | none => exact absurd hA.symm h
      | some old => simp [setActive, setActiveEv, setActiveMid, hA]
    | some j =>
      cases hA : bar.activeId with
      | none => simp [setActive, setActiveEv, setActiveMid, hA]
      | some old =>
        have hj : ¬(some j = some old) := by rw [hA] at h; exact h
        simp [setActive, setActiveEv, setActiveMid, hA, hj]

theorem setActive_map_id (bar : TabBar) (tab : Option Nat) :
    (setActive bar tab).tabs.map Tab.id = bar.tabs.map Tab.id := by
  by_cases h : tab = bar.activeId
  · simp [setActive, setActiveEv, h]
  · cases tab with
    | none =>
      cases hA : bar.activeId with
      | none => exact absurd hA.symm h
      | some old =>
        simp [setActive, setActiveEv, setActiveMid, hA, setTabActive_map_id]
    | some j =>
      cases hA : bar.activeId with
      | none => simp [setActive, setActiveEv, setActiveMid, hA, setTabActive_map_id]
      | some old =>
        have hj : ¬(some j = some old) := by rw [hA] at h; exact h
        simp [setActive, setActiveEv, setActiveMid, hA, hj, setTabActive_map_id]

theorem setActive_map_index (bar : TabBar) (tab : Option Nat) :
    (setActive bar tab).tabs.map Tab.index = bar.tabs.map Tab.index := by
  by_cases h : tab = bar.activeId
  · simp [setActive, setActiveEv, h]
  · cases tab with
    | none =>
      cases hA : bar.activeId with
      | none => exact absurd hA.symm h
      | some old =>
        simp [setActive, setActiveEv, setActiveMid, hA, setTabActive_map_index]
    | some j =>
      cases hA : bar.activeId with
      | none => simp [setActive, setActiveEv, setActiveMid, hA, setTabActive_map_index]
      | some old =>
        have hj : ¬(some j = some old) := by rw [hA] at h; exact h
        simp [setActive, setActiveEv, setActiveMid, hA, hj, setTabActive_map_index]

theorem length_le_one_of_id_const {l : List Tab} {a : Nat}
    (h1 : ∀ t ∈ l, t.id = a) (h2 : (l.map Tab.id).Nodup) : l.length ≤ 1 := by
  rcases l with _ | ⟨t, _ | ⟨u, rest⟩⟩
  · simp
  · simp
  · exfalso
    have ht := h1 t (by simp)
    have hu := h1 u (by simp)
    simp [List.nodup_cons, ht, hu] at h2

theorem inv_atMostOne {bar : TabBar} (hInv : TabBarInv bar) :
    atMostOneActive bar.tabs := by
  obtain ⟨hnd, hact⟩ := hInv
  cases hA : bar.activeId with
  | none =>
    have hnil : bar.tabs.filter (fun t => t.active) = [] := by
      refine List.filter_eq_nil_iff.mpr fun t ht hta => ?_
      have := hact t ht hta
      rw [hA] at this
      exact Option.noConfusion this
    show (bar.tabs.filter fun t => t.active).length ≤ 1
    simp [hnil]
  | some a =>
    refine length_le_one_of_id_const (a := a) ?_ ?_
    · intro t ht
      have h2 := List.mem_filter.mp ht
      have h3 := hact t h2.1 h2.2
      rw [hA] at h3
      exact (Option.some_inj.mp h3).symm
    · exact ((List.filter_sublist _).map Tab.id).nodup hnd

theorem inv_setActive {bar : TabBar} (hInv : TabBarInv bar) (tab : Option Nat) :
    TabBarInv (setActive bar tab) := by
  obtain ⟨hnd, hact⟩ := hInv
  refine ⟨by rw [setActive_map_id]; exact hnd, ?_⟩
  intro t' ht' hta
  rw [setActive_activeId]
  by_cases h : tab = bar.activeId
  · have hbar : setActive bar tab = bar := by
      unfold setActive
      rw [setActiveEv_of_eq h]
    rw [hbar] at ht'
    rw [h]
    exact hact t' ht' hta
  · cases tab with
    | none =>
      cases hA : bar.activeId with
      | none => exact absurd hA.symm h
      | some old =>
        exfalso
        have htabs : (setActive bar none).tabs = setTabActive bar.tabs old false := by
          simp [setActive, setActiveEv, setActiveMid, hA]
        rw [htabs] at ht'
        obtain ⟨v, hv, rfl⟩ := mem_setTabActive.mp ht'
        by_cases hb : (v.id == old) = true
        · simp [hb] at hta
        · simp [hb] at hta
          have := hact v hv hta
          rw [hA] at this
          exact hb (by simp [Option.some_inj.mp this.symm])
    | some j =>
      cases hA : bar.activeId with
      | none =>
        have htabs : (setActive bar (some j)).tabs = setTabActive bar.tabs j true := by
          simp [setActive, setActiveEv, setActiveMid, hA]
        rw [htabs] at ht'
        obtain ⟨v, hv, rfl⟩ := mem_setTabActive.mp ht'
        by_cases hb : (v.id == j) = true
        · simp only [beq_iff_eq] at hb
          simp [hb]
        · exfalso
          simp [hb] at hta
          have := hact v hv hta
          rw [hA] at this
          exact Option.noConfusion this
      | some old =>
        have hj : ¬(some j = some old) := by rw [hA] at h; exact h
        have htabs : (setActive bar (some j)).tabs =
            setTabActive (setTabActive bar.tabs old false) j true := by
          simp [setActive, setActiveEv, setActiveMid, hA, hj]
        rw [htabs] at ht'
        obtain ⟨u, hu, rfl⟩ := mem_setTabActive.mp ht'
        by_cases hb : (u.id == j) = true
        · simp only [beq_iff_eq] at hb
          simp [hb]
        · exfalso
          simp [hb] at hta
          obtain ⟨v, hv, rfl⟩ := mem_setTabActive.mp hu
          by_cases hc : (v.id == old) = true
          · simp [hc] at hta
          · simp [hc] at hta hb
            have := hact v hv hta
            rw [hA] at this
            exact hc (by simp [Option.some_inj.mp this.symm])

theorem mid_atMostOne {bar : TabBar} (hInv : TabBarInv bar) (tab : Option Nat) :
    atMostOneActive (setActiveMid bar tab).tabs := by
  by_cases h : tab = bar.activeId
  · have : setActiveMid bar tab = bar := by simp [setActiveMid, h]
    rw [this]
    exact inv_atMostOne hInv
  · obtain ⟨hnd, hact⟩ := hInv
    cases hA : bar.activeId with
    | none =>
      have hn : ¬tab = none := by rw [hA] at h; exact h
      have : (setActiveMid bar tab).tabs = bar.tabs := by simp [setActiveMid, hA, hn]
      rw [this]
      exact inv_atMostOne ⟨hnd, hact⟩
    | some old =>
      have hn : ¬tab = some old := by rw [hA] at h; exact h
      have htabs : (setActiveMid bar tab).tabs = setTabActive bar.tabs old false := by
        simp [setActiveMid, hA, hn]
      rw [htabs]
      have hnil : (setTabActive bar.tabs old false).filter (fun t => t.active) = [] := by
        refine List.filter_eq_nil_iff.mpr fun t' ht' hta => ?_
        obtain ⟨v, hv, rfl⟩ := mem_setTabActive.mp ht'
        by_cases hc : (v.id == old) = true
        · simp [hc] at hta
        · simp [hc] at hta
          have := hact v hv hta
          rw [hA] at this
          exact hc (by simp [Option.some_inj.mp this.symm])
      show ((setTabActive bar.tabs old false).filter fun t => t.active).length ≤ 1
      simp [hnil]

theorem inv_foldl (calls : List (Option Nat)) {bar : TabBar}
    (hInv : TabBarInv bar) : TabBarInv (calls.foldl setActive bar) := by
  induction calls generalizing bar with
  | nil => exact hInv
  | cons c cs ih => exact ih (inv_setActive hInv c)

/-- C2: along any sequence of calls to the active setter of the tab bar,
starting from a state satisfying the tab-bar invariant, the invariant is
preserved, at most one tab has its active flag set after each call, and
within a single call the intermediate state in which the previously
active flag has already been cleared but the new one has not yet been set
also has at most one active tab, so no observable instant shows two
active tabs (the transient with none active is allowed). -/
theorem setActive_atMostOne_c2 (bar : TabBar) (calls : List (Option Nat))
    (hInv : TabBarInv bar) :
    TabBarInv (calls.foldl setActive bar) ∧
    atMostOneActive ((calls.foldl setActive bar).tabs) ∧
    ∀ tab, atMostOneActive ((setActiveMid (calls.foldl setActive bar) tab).tabs) := by
  have h := inv_foldl calls hInv
  exact ⟨h, inv_atMostOne h, fun tab => mid_atMostOne h tab⟩

/-- Witness for C2 at a concrete bar and call sequence. -/
theorem setActive_atMostOne_c2_witness :
    TabBarInv ⟨[⟨0, 0, true, false⟩, ⟨1, 1, false, false⟩], some 0⟩ ∧
    atMostOneActive ((([some 1, none, some 0] : List (Option Nat)).foldl setActive
      ⟨[⟨0, 0, true, false⟩, ⟨1, 1, false, false⟩], some 0⟩).tabs) :=
  ⟨by decide,
   (setActive_atMostOne_c2 ⟨[⟨0, 0, true, false⟩, ⟨1, 1, false, false⟩], some 0⟩
     [some 1, none, some 0] (by decide)).2.1⟩

/-- C4: calling the active setter with the currently active tab is a
no-op: the state is unchanged and no notification is dispatched; hence
two consecutive calls of the setter with the same argument are equivalent
to a single call. -/
theorem setActive_idempotent_c4 (bar : TabBar) (x : Option Nat) :
    (bar.activeId = x → setActiveEv bar x = (bar, [])) ∧
    setActiveEv (setActive bar x) x = (setActive bar x, []) ∧
    setActive (setActive bar x) x = setActive bar x := by
  refine ⟨fun h => setActiveEv_of_eq h.symm, ?_, ?_⟩
  · exact setActiveEv_of_eq (setActive_activeId bar x).symm
  · show (setActiveEv (setActive bar x) x).1 = setActive bar x
    rw [setActiveEv_of_eq (setActive_activeId bar x).symm]

/-- Witness for C4 at a concrete bar whose active tab is requested again. -/
theorem setActive_idempotent_c4_witness :
    (⟨[⟨0, 0, true, false⟩], some 0⟩ : TabBar).activeId = some 0 ∧
    setActiveEv (⟨[⟨0, 0, true, false⟩], some 0⟩ : TabBar) (some 0) =
      (⟨[⟨0, 0, true, false⟩], some 0⟩, []) :=
  ⟨rfl, (setActive_idempotent_c4 ⟨[⟨0, 0, true, false⟩], some 0⟩ (some 0)).1 rfl⟩

/-- C7: the keydown handler computes the new index clamped into the range
from 0 to one below the number of tabs with no wraparound, and when the
active index already sits at the boundary in the requested direction the
handler leaves the whole state unchanged and dispatches no
notification. -/
theorem onKeydown_boundary_c7 (bar : TabBar) :
    (∀ key oldIdx, oldIdx < bar.tabs.length →
        keyNewIdx key oldIdx bar.tabs.length < bar.tabs.length) ∧
    (((activeTab bar).map Tab.index).getD 0 = 0 →
        onKeydown bar "ArrowLeft" = (bar, [])) ∧
    (((activeTab bar).map Tab.index).getD 0 = bar.tabs.length - 1 →
        onKeydown bar "ArrowRight" = (bar, [])) := by
  refine ⟨?_, ?_, ?_⟩
  · intro key oldIdx h
    unfold keyNewIdx
    split
    · split <;> omega
    · split
      · split <;> omega
      · exact h
  · intro h
    simp [onKeydown, keyNewIdx, h]
  · intro h
    simp [onKeydown, keyNewIdx, h]

/-- Witness for C7 at a concrete two-tab bar with the first tab active. -/
theorem onKeydown_boundary_c7_witness :
    ((activeTab ⟨[⟨5, 0, true, false⟩, ⟨7, 1, false, false⟩], some 5⟩).map
        Tab.index).getD 0 = 0 ∧
    onKeydown ⟨[⟨5, 0, true, false⟩, ⟨7, 1, false, false⟩], some 5⟩ "ArrowLeft" =
      (⟨[⟨5, 0, true, false⟩, ⟨7, 1, false, false⟩], some 5⟩, []) :=
  ⟨by decide,
   (onKeydown_boundary_c7 ⟨[⟨5, 0, true, false⟩, ⟨7, 1, false, false⟩], some 5⟩).2.1
     (by decide)⟩

/-- C10: when no tab is active the keydown handler treats the current
index as 0: on a bar with at least two tabs, ArrowRight activates the tab
at position 1 and never the tab at position 0, while ArrowLeft leaves the
state unchanged and dispatches nothing. -/
theorem onKeydown_noActive_c10 (bar : TabBar) (hA : bar.activeId = none)
    (hn : 2 ≤ bar.tabs.length) (hnd : (bar.tabs.map Tab.id).Nodup) :
    (∃ t1, bar.tabs.get? 1 = some t1 ∧
        (onKeydown bar "ArrowRight").1.activeId = some t1.id ∧
        ∀ t0, bar.tabs.get? 0 = some t0 → t0.id ≠ t1.id) ∧
    onKeydown bar "ArrowLeft" = (bar, []) := by
  have hoA : activeTab bar = none := by simp [activeTab, hA]
  constructor
  · obtain ⟨t1, ht1⟩ : ∃ t1, bar.tabs.get? 1 = some t1 := by
      cases hg : bar.tabs.get? 1 with
      | none => exact absurd (List.get?_eq_none.mp hg) (by omega)
      | some t => exact ⟨t, rfl⟩
    have h1 : 0 < bar.tabs.length - 1 := by omega
    have honk : onKeydown bar "ArrowRight" =
        setActiveEv bar ((bar.tabs.get? 1).map Tab.id) := by
      simp [onKeydown, hoA, keyNewIdx, h1]
    refine ⟨t1, ht1, ?_, ?_⟩
    · rw [honk]
      show (setActive bar ((bar.tabs.get? 1).map Tab.id)).activeId = some t1.id
      rw [setActive_activeId, ht1]
      rfl
    · intro t0 ht0 heq
      have hm0 : (bar.tabs.map Tab.id).get? 0 = some t0.id := by
        rw [List.get?_map, ht0]; rfl
      have hm1 : (bar.tabs.map Tab.id).get? 1 = some t1.id := by
        rw [List.get?_map, ht1]; rfl
      have : (0 : Nat) = 1 := by
        refine List.get?_inj (by simp; omega) hnd ?_
        rw [hm0, hm1, heq]
      exact absurd this (by omega)
  · simp [onKeydown, hoA, keyNewIdx]

/-- Witness for C10 at a concrete two-tab bar with no active tab. -/
theorem onKeydown_noActive_c10_witness :
    (⟨[⟨5, 0, false, false⟩, ⟨7, 1, false, false⟩], none⟩ : TabBar).activeId = none ∧
    ((∃ t1, (⟨[⟨5, 0, false, false⟩, ⟨7, 1, false, false⟩], none⟩ : TabBar).tabs.get? 1 =
          some t1 ∧
        (onKeydown ⟨[⟨5, 0, false, false⟩, ⟨7, 1, false, false⟩], none⟩
            "ArrowRight").1.activeId = some t1.id ∧
        ∀ t0, (⟨[⟨5, 0, false, false⟩, ⟨7, 1, false, false⟩], none⟩ : TabBar).tabs.get? 0 =
            some t0 → t0.id ≠ t1.id) ∧
      onKeydown ⟨[⟨5, 0, false, false⟩, ⟨7, 1, false, false⟩], none⟩ "ArrowLeft" =
        (⟨[⟨5, 0, false, false⟩, ⟨7, 1, false, false⟩], none⟩, [])) :=
  ⟨rfl, onKeydown_noActive_c10 ⟨[⟨5, 0, false, false⟩, ⟨7, 1, false, false⟩], none⟩
    rfl (by decide) (by decide)⟩

theorem setTabActive_get? (ts : List Tab) (i : Nat) (b : Bool) (k : Nat) :
    (setTabActive ts i b).get? k =
      (ts.get? k).map fun t => if t.id == i then { t with active := b } else t := by
  simp [setTabActive, List.get?_map]

theorem slotLoop_map_index (ts : List Tab) (i : Nat) (na : Option Nat) :
    (slotLoop ts i na).1.map Tab.index = List.range' i ts.length := by
  induction ts generalizing i na with
  | nil => simp [slotLoop]
  | cons t ts ih =>
    cases na with
    | some a => simp [slotLoop, ih, List.range'_succ]
    | none =>
      by_cases h : claimsActive t = true
      · simp [slotLoop, h, ih, List.range'_succ]
      · simp [slotLoop, h, ih, List.range'_succ]

theorem slotLoop_map_id (ts : List Tab) (i : Nat) (na : Option Nat) :
    (slotLoop ts i na).1.map Tab.id = ts.map Tab.id := by
  induction ts generalizing i na with
  | nil => simp [slotLoop]
  | cons t ts ih =>
    cases na with
    | some a => simp [slotLoop, ih]
    | none =>
      by_cases h : claimsActive t = true
      · simp [slotLoop, h, ih]
      · simp [slotLoop, h, ih]

theorem slotLoop_some (ts : List Tab) (i : Nat) (a : Nat) :
    (slotLoop ts i (some a)).2 = some a ∧
      ∀ t' ∈ (slotLoop ts i (some a)).1, t'.active = false := by
  induction ts generalizing i with
  | nil => simp [slotLoop]
  | cons t ts ih =>
    have hrec := ih (i + 1)
    constructor
    · show (slotLoop (t :: ts) i (some a)).2 = some a
      simp only [slotLoop]
      exact hrec.1
    · intro t' ht'
      simp only [slotLoop, List.mem_cons] at ht'
      rcases ht' with rfl | h2
      · rfl
      · exact hrec.2 t' h2

theorem slotLoop_none_snd (ts : List Tab) (i : Nat) :
    (slotLoop ts i none).2 = (ts.get? (ts.findIdx claimsActive)).map Tab.id := by
  induction ts generalizing i with
  | nil => simp [slotLoop]
  | cons t ts ih =>
    by_cases h : claimsActive t = true
    · simp only [slotLoop, h, if_true]
      rw [(slotLoop_some ts (i + 1) t.id).1]
      simp [List.findIdx_cons, h]
    · simp only [slotLoop, h, if_false]
      rw [ih (i + 1)]
      simp [List.findIdx_cons, h]

theorem slotLoop_active_pos (ts : List Tab) (i : Nat) :
    ∀ k t', (slotLoop ts i none).1.get? k = some t' → t'.active = true →
      ts.findIdx claimsActive = k := by
  induction ts generalizing i with
  | nil =>
    intro k t' hk _
    simp [slotLoop] at hk
  | cons t ts ih =>
    intro k t' hk ha
    by_cases h : claimsActive t = true
    · cases k with
      | zero => simp [List.findIdx_cons, h]
      | succ k =>
        exfalso
        simp only [slotLoop, h, if_true, List.get?_cons_succ] at hk
        have := (slotLoop_some ts (i + 1) t.id).2 t' (List.get?_mem hk)
        rw [this] at ha
        exact Bool.noConfusion ha
    · cases k with
      | zero =>
        exfalso
        simp only [slotLoop, h, if_false, List.get?_cons_zero] at hk
        have hta : t.active = false := by
          cases hact : t.active
          · rfl
          · exact absurd (by simp [claimsActive, hact]) h
        rw [← Option.some_inj.mp hk] at ha
        simp [hta] at ha
      | succ k =>
        simp only [slotLoop, h, if_false, List.get?_cons_succ] at hk
        have := ih (i + 1) k t' hk ha
        simp [List.findIdx_cons, h, this]

theorem setActive_active_source (bar : TabBar) (tab : Option Nat) (k : Nat) (t' : Tab)
    (hk : (setActive bar tab).tabs.get? k = some t') (ha : t'.active = true) :
    ∃ u, bar.tabs.get? k = some u ∧ (u.active = true ∨ tab = some u.id) := by
  by_cases h : tab = bar.activeId
  · have hbar : setActive bar tab = bar := by
      unfold setActive
      rw [setActiveEv_of_eq h]
    rw [hbar] at hk
    exact ⟨t', hk, Or.inl ha⟩
  · cases tab with
    | none =>
      cases hA : bar.activeId with
      | none => exact absurd hA.symm h
      | some old =>
        have htabs : (setActive bar none).tabs = setTabActive bar.tabs old false := by
          simp [setActive, setActiveEv, setActiveMid, hA]
        rw [htabs, setTabActive_get?] at hk
        cases hu : bar.tabs.get? k with
        | none =>
          rw [hu] at hk
          exact Option.noConfusion hk
        | some u =>
          rw [hu] at hk
          refine ⟨u, rfl, Or.inl ?_⟩
          have ht' := Option.some_inj.mp hk
          by_cases hb : (u.id == old) = true
          · rw [← ht'] at ha
            simp [hb] at ha
          · rw [← ht'] at ha
            simpa [hb] using ha
    | some j =>
      cases hA : bar.activeId with
      | none =>
        have htabs : (setActive bar (some j)).tabs = setTabActive bar.tabs j true := by
          simp [setActive, setActiveEv, setActiveMid, hA]
        rw [htabs, setTabActive_get?] at hk
        cases hu : bar.tabs.get? k with
        | none =>
          rw [hu] at hk
          exact Option.noConfusion hk
        | some u =>
          rw [hu] at hk
          refine ⟨u, rfl, ?_⟩
          have ht' := Option.some_inj.mp hk
          by_cases hb : (u.id == j) = true
          · simp only [beq_iff_eq] at hb
            exact Or.inr (by rw [hb])
          · rw [← ht'] at ha
            simp [hb] at ha
            exact Or.inl ha
      | some old =>
        have hj : ¬(some j = some old) := by rw [hA] at h; exact h
        have htabs : (setActive bar (some j)).tabs =
            setTabActive (setTabActive bar.tabs old false) j true := by
          simp [setActive, setActiveEv, setActiveMid, hA, hj]
        rw [htabs, setTabActive_get?, setTabActive_get?] at hk
        cases hu : bar.tabs.get? k with
        | none =>
          rw [hu] at hk
          exact Option.noConfusion hk
        | some u =>
          rw [hu] at hk
          refine ⟨u, rfl, ?_⟩
          have ht' := Option.some_inj.mp hk
          by_cases hc : (u.id == old) = true
          · simp only [Option.map_some] at ht'
            rw [if_pos hc] at ht'
            by_cases hb : (u.id == j) = true
            · simp only [beq_iff_eq] at hb
              exact Or.inr (by rw [hb])
            · rw [← ht'] at ha
              simp [hb] at ha
          · simp only [Option.map_some] at ht'
            rw [if_neg hc] at ht'
            by_cases hb : (u.id == j) = true
            · simp only [beq_iff_eq] at hb
              exact Or.inr (by rw [hb])
            · rw [← ht'] at ha
              simp [hb] at ha
              exact Or.inl ha

/-- C3: after the slotchange handler runs on a tab list with pairwise
distinct identities, every tab carries the index equal to its position,
the bar registers as active the identity of the earliest tab asserting
active through its flag or its attribute (none when no tab asserts it),
and any tab whose active flag is set afterwards sits exactly at the
position of that earliest claimant, so every later claimant has been
deactivated. -/
theorem onSlotchange_spec_c3 (bar : TabBar) (ts : List Tab)
    (hnd : (ts.map Tab.id).Nodup) :
    ((onSlotchange bar ts).tabs.map Tab.index = List.range ts.length) ∧
    ((onSlotchange bar ts).activeId = (ts.get? (ts.findIdx claimsActive)).map Tab.id) ∧
    ((∀ t ∈ ts, claimsActive t = false) → (onSlotchange bar ts).activeId = none) ∧
    (∀ k t', (onSlotchange bar ts).tabs.get? k = some t' → t'.active = true →
        ts.findIdx claimsActive = k) := by
  have hsnd : (slotLoop ts 0 none).2 = (ts.get? (ts.findIdx claimsActive)).map Tab.id :=
    slotLoop_none_snd ts 0
  refine ⟨?_, ?_, ?_, ?_⟩
  · show (setActive _ _).tabs.map Tab.index = _
    rw [setActive_map_index]
    show (slotLoop ts 0 none).1.map Tab.index = _
    rw [slotLoop_map_index, List.range_eq_range']
  · show (setActive _ _).activeId = _
    rw [setActive_activeId]
    exact hsnd
  · intro hall
    show (setActive _ _).activeId = _
    rw [setActive_activeId, hsnd]
    rw [List.findIdx_eq_length.mpr hall]
    rw [List.get?_eq_none.mpr (Nat.le_refl _)]
    rfl
  · intro k t' hk ha
    obtain ⟨u, hu, hcase⟩ := setActive_active_source _ _ k t' hk ha
    rcases hcase with hua | hid
    · exact slotLoop_active_pos ts 0 k u hu hua
    · rw [hsnd] at hid
      cases hf : ts.get? (ts.findIdx claimsActive) with
      | none =>
        rw [hf] at hid
        exact Option.noConfusion hid
      | some f =>
        rw [hf] at hid
        have hfid : f.id = u.id := by simpa using hid
        have hmk : (ts.map Tab.id).get? k = some u.id := by
          have := congrArg (fun l => l.get? k) (slotLoop_map_id ts 0 none)
          simp only at this
          rw [← this, List.get?_map, hu]
          rfl
        have hmf : (ts.map Tab.id).get? (ts.findIdx claimsActive) = some u.id := by
          rw [List.get?_map, hf]
          simp [hfid]
        have hlt : ts.findIdx claimsActive < (ts.map Tab.id).length := by
          have := List.get?_eq_some.mp hf
          simpa using this.1
        exact List.get?_inj hlt hnd (by rw [hmf, hmk])

/-- Witness for C3 at a concrete tab list in which the second and third
tabs both assert active: the earlier one wins. -/
theorem onSlotchange_spec_c3_witness :
    (([⟨10, 5, false, false⟩, ⟨11, 2, true, false⟩,
        ⟨12, 7, true, false⟩] : List Tab).map Tab.id).Nodup ∧
    (onSlotchange ⟨[], none⟩
        [⟨10, 5, false, false⟩, ⟨11, 2, true, false⟩, ⟨12, 7, true, false⟩]).activeId =
      (([⟨10, 5, false, false⟩, ⟨11, 2, true, false⟩, ⟨12, 7, true, false⟩] :
          List Tab).get?
        (([⟨10, 5, false, false⟩, ⟨11, 2, true, false⟩, ⟨12, 7, true, false⟩] :
            List Tab).findIdx claimsActive)).map Tab.id :=
  ⟨by decide,
   (onSlotchange_spec_c3 ⟨[], none⟩
     [⟨10, 5, false, false⟩, ⟨11, 2, true, false⟩, ⟨12, 7, true, false⟩]
     (by decide)).2.1⟩

theorem visibleFiles_not_hidden (s : PlaygroundTabBar) :
    ∀ f ∈ visibleFiles s, f.hidden = false := by
  intro f hf
  have := (List.mem_filter.mp hf).2
  simpa using this

theorem scanBack_eq (vis : List FileEntry) (hvis : ∀ f ∈ vis, f.hidden = false)
    (i : Nat) (hne : vis ≠ []) :
    scanBack vis i = vis.get? (min i (vis.length - 1)) := by
  induction i with
  | zero =>
    have h0 : 0 < vis.length := List.length_pos.mpr hne
    cases hg : vis.get? 0 with
    | none => exact absurd (List.get?_eq_none.mp hg) (by omega)
    | some f =>
      have hf : f.hidden = false := hvis f (List.get?_mem hg)
      have hg2 : vis[(0 : Nat)]? = some f := by
        rw [← List.get?_eq_getElem?]
        exact hg
      have hmin : min 0 (vis.length - 1) = 0 := by omega
      rw [hmin, hg]
      simp [scanBack, hg2, hf]
  | succ i ih =>
    cases hg : vis.get? (i + 1) with
    | some f =>
      have hf : f.hidden = false := hvis f (List.get?_mem hg)
      have hg2 : vis[i + 1]? = some f := by
        rw [← List.get?_eq_getElem?]
        exact hg
      have hlt : i + 1 < vis.length := by
        rcases List.get?_eq_some.mp hg with ⟨hl, _⟩
        exact hl
      have hmin : min (i + 1) (vis.length - 1) = i + 1 := by omega
      rw [hmin, hg]
      simp [scanBack, hg2, hf]
    | none =>
      have hge : vis.length ≤ i + 1 := List.get?_eq_none.mp hg
      have hg2 : vis[i + 1]? = none := by
        rw [← List.get?_eq_getElem?]
        exact hg
      have h0 : 0 < vis.length := List.length_pos.mpr hne
      have hmin : min (i + 1) (vis.length - 1) = vis.length - 1 := by omega
      have hmin2 : min i (vis.length - 1) = vis.length - 1 := by omega
      have hstep : scanBack vis (i + 1) = scanBack vis i := by
        simp [scanBack, hg2]
      rw [hstep, ih, hmin2, hmin]

theorem scanBack_nil (i : Nat) : scanBack [] i = none := by
  induction i with
  | zero => rfl
  | succ i ih => simp [scanBack, ih]

theorem scanBack_none_nil (vis : List FileEntry)
    (hvis : ∀ f ∈ vis, f.hidden = false) (i : Nat)
    (h : scanBack vis i = none) : vis = [] := by
  by_contra hne
  rw [scanBack_eq vis hvis i hne] at h
  have h0 : 0 < vis.length := List.length_pos.mpr hne
  have := List.get?_eq_none.mp h
  omega

theorem setNewActiveFile_scanHit (s : PlaygroundTabBar) (f : FileEntry)
    (h1 : s.activeFileName = "" ∨
      List.findIdx? (fun g => g.name == s.activeFileName) (visibleFiles s) = none)
    (h2 : scanBack (visibleFiles s) s.activeFileIndex = some f) :
    setNewActiveFile s = { s with activeFileName := f.name } := by
  rcases h1 with h1 | h1
  · simp [setNewActiveFile, h1, h2]
  · by_cases hn : s.activeFileName = ""
    · simp [setNewActiveFile, hn, h2]
    · simp [setNewActiveFile, hn, h1, h2]

theorem setNewActiveFile_sentinel (s : PlaygroundTabBar)
    (h1 : s.activeFileName = "" ∨
      List.findIdx? (fun g => g.name == s.activeFileName) (visibleFiles s) = none)
    (h2 : scanBack (visibleFiles s) s.activeFileIndex = none) :
    setNewActiveFile s = { s with activeFileIndex := 0, activeFileName := "" } := by
  rcases h1 with h1 | h1
  · simp [setNewActiveFile, h1, h2]
  · by_cases hn : s.activeFileName = ""
    · simp [setNewActiveFile, hn, h2]
    · simp [setNewActiveFile, hn, h1, h2]

/-- C5: when the previously active filename is nonempty and still present
among the visible files, reconciliation keeps the filename and updates
only the stored index, to the position of that file in the visible
list. -/
theorem setNewActiveFile_nameContinuity_c5 (s : PlaygroundTabBar) (idx : Nat)
    (h1 : s.activeFileName ≠ "")
    (h2 : List.findIdx? (fun f => f.name == s.activeFileName) (visibleFiles s) =
      some idx) :
    setNewActiveFile s = { s with activeFileIndex := idx } := by
  simp [setNewActiveFile, h1, h2]

/-- Witness for C5: with active b.js at index 1 and a.js removed, the
visible files are b.js and c.js, so b.js stays active with index 0. -/
theorem setNewActiveFile_nameContinuity_c5_witness :
    (⟨[⟨"b.js", false⟩, ⟨"c.js", false⟩], "b.js", 1⟩ :
        PlaygroundTabBar).activeFileName ≠ "" ∧
    setNewActiveFile ⟨[⟨"b.js", false⟩, ⟨"c.js", false⟩], "b.js", 1⟩ =
      ⟨[⟨"b.js", false⟩, ⟨"c.js", false⟩], "b.js", 0⟩ :=
  ⟨by decide,
   setNewActiveFile_nameContinuity_c5 ⟨[⟨"b.js", false⟩, ⟨"c.js", false⟩], "b.js", 1⟩ 0
     (by decide) (by decide)⟩

/-- C6: when the visible file list is empty, or equivalently when the
backward scan finds no visible entry, reconciliation sets the stored
index to 0 and the active filename to the empty sentinel. -/
theorem setNewActiveFile_empty_c6 (s : PlaygroundTabBar)
    (h : visibleFiles s = [] ∨ scanBack (visibleFiles s) s.activeFileIndex = none) :
    setNewActiveFile s = { s with activeFileIndex := 0, activeFileName := "" } := by
  have hnil : visibleFiles s = [] := by
    rcases h with h | h
    · exact h
    · exact scanBack_none_nil _ (visibleFiles_not_hidden s) _ h
  have hscan : scanBack (visibleFiles s) s.activeFileIndex = none := by
    rw [hnil]
    exact scanBack_nil _
  have hfind : List.findIdx? (fun g => g.name == s.activeFileName)
      (visibleFiles s) = none := by
    rw [hnil]
    rfl
  exact setNewActiveFile_sentinel s (Or.inr hfind) hscan

/-- Witness for C6 at a state whose only file is hidden. -/
theorem setNewActiveFile_empty_c6_witness :
    visibleFiles ⟨[⟨"h.js", true⟩], "x.js", 3⟩ = [] ∧
    setNewActiveFile ⟨[⟨"h.js", true⟩], "x.js", 3⟩ = ⟨[⟨"h.js", true⟩], "", 0⟩ :=
  ⟨by decide,
   setNewActiveFile_empty_c6 ⟨[⟨"h.js", true⟩], "x.js", 3⟩ (Or.inl (by decide))⟩

/-- C9: in the backward-scan branch, when the scan finds a visible entry,
only the active filename field is assigned; the stored index and the
files keep their old values, so whenever the found entry sits strictly
left of the stored index the stored index differs from the position of
the newly active entry. -/
theorem setNewActiveFile_scanFrame_c9 (s : PlaygroundTabBar) (f : FileEntry)
    (h1 : s.activeFileName = "" ∨
      List.findIdx? (fun g => g.name == s.activeFileName) (visibleFiles s) = none)
    (h2 : scanBack (visibleFiles s) s.activeFileIndex = some f) :
    (setNewActiveFile s).activeFileName = f.name ∧
    (setNewActiveFile s).activeFileIndex = s.activeFileIndex ∧
    (setNewActiveFile s).files = s.files ∧
    ∀ i, (visibleFiles s).get? i = some f → i < s.activeFileIndex →
      (setNewActiveFile s).activeFileIndex ≠ i := by
  have heq := setNewActiveFile_scanHit s f h1 h2
  rw [heq]
  refine ⟨rfl, rfl, rfl, ?_⟩
  intro i _ hlt
  show s.activeFileIndex ≠ i
  omega

/-- Witness for C9 at a state whose stored index 1 points past the single
visible file a.js: the scan activates a.js but the index stays 1, which
differs from the actual position 0. -/
theorem setNewActiveFile_scanFrame_c9_witness :
    scanBack (visibleFiles ⟨[⟨"a.js", false⟩], "z.js", 1⟩) 1 = some ⟨"a.js", false⟩ ∧
    (setNewActiveFile ⟨[⟨"a.js", false⟩], "z.js", 1⟩).activeFileName = "a.js" ∧
    (setNewActiveFile ⟨[⟨"a.js", false⟩], "z.js", 1⟩).activeFileIndex = 1 :=
  ⟨by decide,
   (setNewActiveFile_scanFrame_c9 ⟨[⟨"a.js", false⟩], "z.js", 1⟩ ⟨"a.js", false⟩
     (Or.inr (by decide)) (by decide)).1,
   (setNewActiveFile_scanFrame_c9 ⟨[⟨"a.js", false⟩], "z.js", 1⟩ ⟨"a.js", false⟩
     (Or.inr (by decide)) (by decide)).2.1⟩

/-- C1 counterexample: deleting the active middle file b.js from the
visible list a.js, b.js, c.js leaves visible files a.js and c.js with the
stored index still 1; reconciliation activates c.js, the successor now
occupying index 1, and not the predecessor a.js named by the claim. -/
theorem setNewActiveFile_c1_counterexample :
    (setNewActiveFile ⟨[⟨"a.js", false⟩, ⟨"c.js", false⟩], "b.js", 1⟩).activeFileName =
      "c.js" ∧
    (setNewActiveFile ⟨[⟨"a.js", false⟩, ⟨"c.js", false⟩], "b.js", 1⟩).activeFileName ≠
      "a.js" := by
  constructor
  · rfl
  · decide

/-- C1 amended: when the previously active filename is gone from the
visible list, reconciliation scans backward from the previous index,
inclusive, toward 0 over the current visible list, and the first visible
entry found becomes active while the stored index is not reassigned; the
entry found is the one now occupying the previous index, or the last
entry when the previous index is beyond the end, so deleting the active
file from a list with both a predecessor and a successor activates the
successor, which has slid into the previous index. -/
theorem setNewActiveFile_backwardScan_c1 (s : PlaygroundTabBar)
    (h1 : s.activeFileName = "" ∨
      List.findIdx? (fun g => g.name == s.activeFileName) (visibleFiles s) = none)
    (h2 : visibleFiles s ≠ []) :
    ∃ f, (visibleFiles s).get?
        (min s.activeFileIndex ((visibleFiles s).length - 1)) = some f ∧
      (setNewActiveFile s).activeFileName = f.name ∧
      (setNewActiveFile s).activeFileIndex = s.activeFileIndex := by
  have hvis := visibleFiles_not_hidden s
  have hsb := scanBack_eq (visibleFiles s) hvis s.activeFileIndex h2
  cases hg : (visibleFiles s).get?
      (min s.activeFileIndex ((visibleFiles s).length - 1)) with
  | none =>
    exfalso
    have h0 : 0 < (visibleFiles s).length := List.length_pos.mpr h2
    have := List.get?_eq_none.mp hg
    omega
  | some f =>
    have hscan : scanBack (visibleFiles s) s.activeFileIndex = some f := by
      rw [hsb, hg]
    have heq := setNewActiveFile_scanHit s f h1 hscan
    exact ⟨f, rfl, by rw [heq], by rw [heq]⟩

/-- Witness for the amended C1 at the concrete state of the
counterexample: the entry found at index 1 is c.js. -/
theorem setNewActiveFile_backwardScan_c1_witness :
    visibleFiles ⟨[⟨"a.js", false⟩, ⟨"c.js", false⟩], "b.js", 1⟩ ≠ [] ∧
    ∃ f, (visibleFiles ⟨[⟨"a.js", false⟩, ⟨"c.js", false⟩], "b.js", 1⟩).get?
        (min 1 ((visibleFiles ⟨[⟨"a.js", false⟩, ⟨"c.js", false⟩], "b.js", 1⟩).length
          - 1)) = some f ∧
      (setNewActiveFile ⟨[⟨"a.js", false⟩, ⟨"c.js", false⟩], "b.js", 1⟩).activeFileName =
        f.name ∧
      (setNewActiveFile ⟨[⟨"a.js", false⟩, ⟨"c.js", false⟩], "b.js", 1⟩).activeFileIndex =
        1 :=
  ⟨by decide,
   setNewActiveFile_backwardScan_c1 ⟨[⟨"a.js", false⟩, ⟨"c.js", false⟩], "b.js", 1⟩
     (Or.inr (by decide)) (by decide)⟩

/-- C8: pressing Enter in the filename input clicks the submit button
exactly when the rendered button is enabled, and the button is enabled
exactly when a project is connected, the filename input exists, and the
project validation accepts the input value; an invalid filename merely
leaves the submission disabled, the handler is total. -/
theorem enterSubmit_c8 (c : FileSystemControls) (key : String) :
    (onFilenameInputKeydown c key = true ↔
      key = "Enter" ∧ filenameInputValid c = true) ∧
    (filenameInputValid c = true ↔
      ∃ p v, c.project = some p ∧ c.filenameInput = some v ∧
        p.isValidNewFilename v = true) := by
  constructor
  · cases hin : c.filenameInput with
    | none =>
      simp [onFilenameInputKeydown, submitButtonDisabled, filenameInputValid, hin]
    | some v =>
      cases hp : c.project with
      | none =>
        simp [onFilenameInputKeydown, submitButtonDisabled, filenameInputValid, hin, hp]
      | some p =>
        cases hval : p.isValidNewFilename v <;>
          simp [onFilenameInputKeydown, submitButtonDisabled, filenameInputValid,
            hin, hp, hval]
  · cases hin : c.filenameInput with
    | none => simp [filenameInputValid, hin]
    | some v =>
      cases hp : c.project with
      | none => simp [filenameInputValid, hin, hp]
      | some p => simp [filenameInputValid, hin, hp]

/-- Witness for C8: with a connected project accepting nonempty names and
input value x.js, Enter fires the submit action. -/
theorem enterSubmit_c8_witness :
    onFilenameInputKeydown ⟨some ⟨fun v => !(v == "")⟩, some "x.js"⟩ "Enter" = true :=
  (enterSubmit_c8 ⟨some ⟨fun v => !(v == "")⟩, some "x.js"⟩ "Enter").1.mpr
    ⟨rfl, by decide⟩

end Playground
